import Mathlib

/-!
Verification of the securities yield-curve repository: a shallow embedding of
its numerical core (NSS curve model, Nelder-Mead optimizer, bond date/pricing
engine, day-count helpers, YTM solver plumbing, CUSIP validation) together
with theorems settling the specification claims.

JavaScript numbers are modelled by real (for the exponential curve model) or
rational (for the purely arithmetic algorithms) arithmetic; JS `Date` values
are modelled either as millisecond timestamps or as calendar triples,
depending on what the embedded function inspects.
-/

namespace Securities

/-! ### Curve model (NSS), from `nssCurve` in the analyzer module

The source guards: `if (tau < 0.0001) tau = 0.0001;`
`if (lambda1 <= 0) lambda1 = 0.1; if (lambda2 <= 0) lambda2 = 0.1;`
then evaluates the Svensson formula. -/

/-- Embedding of `nssCurve(tau, theta0, theta1, theta2, theta3, lambda1, lambda2)`:
clamps `tau` below by `0.0001` and non-positive decay parameters to `0.1`,
then evaluates the Nelson-Siegel-Svensson spot-rate formula. -/
noncomputable def nssCurve (tau theta0 theta1 theta2 theta3 lambda1 lambda2 : ℝ) : ℝ :=
  let tau' : ℝ := if tau < 1/10000 then 1/10000 else tau
  let l1 : ℝ := if lambda1 ≤ 0 then 1/10 else lambda1
  let l2 : ℝ := if lambda2 ≤ 0 then 1/10 else lambda2
  let term1 := theta0
  let term2 := theta1 * ((1 - Real.exp (-tau'/l1)) / (tau'/l1))
  let term3 := theta2 * (((1 - Real.exp (-tau'/l1)) / (tau'/l1)) - Real.exp (-tau'/l1))
  let term4 := theta3 * (((1 - Real.exp (-tau'/l2)) / (tau'/l2)) - Real.exp (-tau'/l2))
  term1 + term2 + term3 + term4

/-- The clamping of the maturity argument described by the spec
(`if tau < epsilon: tau = epsilon`, with the code's epsilon `0.0001`). -/
noncomputable def clampTau (tau : ℝ) : ℝ := if tau < 1/10000 then 1/10000 else tau

/-- The clamping of a decay parameter described by the spec
(`if lambda <= 0: lambda = epsilon`, with the code's epsilon `0.1`). -/
noncomputable def clampLambda (l : ℝ) : ℝ := if l ≤ 0 then 1/10 else l

/-- The raw Nelson-Siegel-Svensson spot-rate formula as written in the spec:
`theta0 + theta1*f1 + theta2*(f1 - exp(-tau/lambda1))
 + theta3*(((1-exp(-tau/lambda2))/(tau/lambda2)) - exp(-tau/lambda2))`
with `f1 = (1 - exp(-tau/lambda1)) / (tau/lambda1)`. -/
noncomputable def nssFormula (tau theta0 theta1 theta2 theta3 lambda1 lambda2 : ℝ) : ℝ :=
  let f1 := (1 - Real.exp (-tau/lambda1)) / (tau/lambda1)
  theta0 + theta1 * f1 + theta2 * (f1 - Real.exp (-tau/lambda1))
    + theta3 * (((1 - Real.exp (-tau/lambda2)) / (tau/lambda2)) - Real.exp (-tau/lambda2))

/-! ### Day-count helpers, from the date-helper module

`daysBetween` divides the raw timestamp difference by the number of
milliseconds in a day, with no validation and no rounding.  The variant in
the CUSIP analyzer additionally applies `Math.round`.  `daysBetween2`
validates its arguments and the ordering before rounding.  Timestamps are
modelled as integer milliseconds; an invalid JS `Date` is `none`. -/

/-- JavaScript `Math.round`: round half toward positive infinity. -/
def jsRound (q : ℚ) : ℤ := ⌊q + 1/2⌋

/-- Embedding of `daysBetween(startDate, endDate)` from the date-helper module:
`(endDate - startDate) / (1000*60*60*24)`, no validation, no rounding. -/
def daysBetween (startDate endDate : ℤ) : ℚ :=
  ((endDate : ℚ) - (startDate : ℚ)) / (1000 * 60 * 60 * 24)

/-- Embedding of the CUSIP analyzer's `daysBetween(date1, date2)`:
`Math.round((date2 - date1) / (24*60*60*1000))`, still no validation. -/
def daysBetweenRounded (date1 date2 : ℤ) : ℤ :=
  jsRound (((date2 : ℚ) - (date1 : ℚ)) / (24 * 60 * 60 * 1000))

/-- Error kinds raised by `daysBetween2`. -/
inductive DateErr where
  | invalidDate
  | invalidRange
  deriving DecidableEq, Repr

/-- Embedding of `daysBetween2(date1, date2)`: rejects invalid dates
(modelled as `none`), rejects `date2 < date1`, and otherwise returns the
rounded actual day count.  The JS `instanceof Date` check is subsumed by the
typing of the model. -/
def daysBetween2 (date1 date2 : Option ℤ) : Except DateErr ℤ :=
  match date1, date2 with
  | some t1, some t2 =>
      if t2 < t1 then .error .invalidRange
      else .ok (jsRound (((t2 : ℚ) - (t1 : ℚ)) / (24 * 60 * 60 * 1000)))
  | _, _ => .error .invalidDate

/-! ### CUSIP validation

Two variants exist in the repository: the analyzer's
(`length === 9` guard plus regex `^[0-9]{5}[0-9A-Z]{3}[0-9]$`) and the chat
helper's (regex `^[A-Z0-9]{9}$` alone). -/

/-- The test of the regex `^[0-9]{5}[0-9A-Z]{3}[0-9]$` on a string. -/
def cusipPatternTest (s : String) : Bool :=
  match s.toList with
  | [c0, c1, c2, c3, c4, c5, c6, c7, c8] =>
      c0.isDigit && c1.isDigit && c2.isDigit && c3.isDigit && c4.isDigit &&
      (c5.isDigit || c5.isUpper) && (c6.isDigit || c6.isUpper) &&
      (c7.isDigit || c7.isUpper) && c8.isDigit
  | _ => false

/-- Embedding of the analyzer's `validateCUSIP(cusip)` (truthiness and string
type checks are subsumed by the typing; `""` is falsy in JS and is rejected
here by the length test, preserving behaviour). -/
def validateCUSIP (cusip : String) : Bool :=
  if cusip.length ≠ 9 then false
  else cusipPatternTest cusip

/-- Embedding of the chat helper's `validateCUSIP(cusip)`: the test of the
regex `^[A-Z0-9]{9}$`. -/
def validateCUSIP2 (cusip : String) : Bool :=
  cusip.toList.length == 9 && cusip.toList.all (fun c => c.isUpper || c.isDigit)

/-! ### Market data and calibration guards -/

/-- A single market observation `{term, yield}`. -/
structure MarketPoint (α : Type) where
  term : α
  yield : α
  deriving DecidableEq

/-- Result record of the Nelder-Mead optimizer
(`{x: best point, fx: best value, iterations: count}`). -/
structure NMResult (α : Type) where
  x : List α
  fx : α
  iterations : ℕ
  deriving DecidableEq

/-- Error kinds of the calibration entry points. -/
inductive FitErr where
  | invalidMaturity
  | insufficientData
  deriving DecidableEq, Repr

/-- Embedding of `calculateNSSYield(t, params)` from `nssCalculator.js`:
returns `theta0 + theta1` for non-positive maturities, otherwise the raw
NSS formula (this variant has no lambda guards). -/
noncomputable def calculateNSSYield (t : ℝ) (p : List ℝ) : ℝ :=
  let theta0 := p.getD 0 0
  let theta1 := p.getD 1 0
  let theta2 := p.getD 2 0
  let theta3 := p.getD 3 0
  let lambda1 := p.getD 4 0
  let lambda2 := p.getD 5 0
  if t ≤ 0 then theta0 + theta1
  else
    let term1 := t / lambda1
    let term2 := t / lambda2
    let exp1 := Real.exp (-term1)
    let exp2 := Real.exp (-term2)
    let factor1 := (1 - exp1) / term1
    let factor2 := factor1 - exp1
    let factor3 := ((1 - exp2) / term2) - exp2
    theta0 + theta1 * factor1 + theta2 * factor2 + theta3 * factor3

/-- Embedding of `calculateNSSErrors(X, marketData)` from `nssCalculator.js`:
a large penalty for `lambda1 <= 0.05 || lambda2 <= 0.05`, otherwise the sum
of squared yield errors. -/
noncomputable def calculateNSSErrors (X : List ℝ) (marketData : List (MarketPoint ℝ)) : ℝ :=
  if X.getD 4 0 ≤ 1/20 ∨ X.getD 5 0 ≤ 1/20 then 1000000000
  else marketData.foldl
    (fun acc ob => acc + (ob.yield - calculateNSSYield ob.term X) ^ 2) 0

/-- Embedding of `calculateSpotRate(env, targetMaturity, options)` from
`nssCalculator.js`, with the database fetch replaced by the resulting
`marketData` list and the imported Nelder-Mead optimizer abstracted as a
function argument (so that the theorem can state that the optimizer and the
objective are never consulted on the failure paths).  Returns
`(spotRate * 100, fitted parameter list, iterations, final error,
data-point count)`. -/
noncomputable def calculateSpotRate
    (optimizer : (List ℝ → ℝ) → List ℝ → NMResult ℝ)
    (marketData : List (MarketPoint ℝ)) (initialParams : List ℝ)
    (targetMaturity : ℝ) : Except FitErr (ℝ × List ℝ × ℕ × ℝ × ℕ) :=
  if targetMaturity ≤ 0 ∨ 30 < targetMaturity then .error .invalidMaturity
  else if marketData.length < 6 then .error .insufficientData
  else
    let result := optimizer (fun X => calculateNSSErrors X marketData) initialParams
    .ok (calculateNSSYield targetMaturity result.x * 100, result.x,
         result.iterations, result.fx, marketData.length)

/-- A raw securities row as consumed by `getMarketData` (dates are
millisecond timestamps; an unparseable yield is `none`). -/
structure SecRow where
  highYield : Option ℚ
  issueDate : ℤ
  maturityDate : ℤ
  deriving DecidableEq

instance : DecidableRel (fun (a b : MarketPoint ℚ) => a.term ≤ b.term) :=
  fun a b => inferInstanceAs (Decidable (a.term ≤ b.term))

/-- Embedding of `getMarketData(db)` from the NSS analyzer: rejects result
sets of fewer than 6 rows before any cleaning, then converts each row into a
term/yield pair (`term = ceil(|maturity - issue| in days) / 365.25`),
keeping rows with a parseable yield and `term > 0.01`, sorted by term. -/
def getMarketData (results : List SecRow) : Except FitErr (List (MarketPoint ℚ)) :=
  if results.length < 6 then .error .insufficientData
  else
    let values := results.filterMap (fun row =>
      match row.highYield with
      | none => none
      | some y =>
          let diffDays : ℤ := ⌈(|(row.maturityDate : ℚ) - (row.issueDate : ℚ)| / 86400000 : ℚ)⌉
          let term : ℚ := (diffDays : ℚ) / (1461/4)
          if 1/100 < term then some ⟨term, y⟩ else none)
    .ok (List.insertionSort (fun a b => a.term ≤ b.term) values)

/-! ### Yield-curve generation grid

`getYieldCurve` fits parameters, then walks `numPoints` evenly spaced
maturities `t = minMaturity + i * (maxMaturity / (numPoints - 1))`, skipping
any point whose rate fails the finiteness check.  The fitted NSS rate
function and the JS `isFinite`/`isNaN` test are abstracted as arguments
`rate` and `ok`; the loop itself is embedded exactly. -/

/-- Embedding of the point-generation loop of `getYieldCurve` (the curve is
the list of `{maturity, rate}` pairs with the rate in percent). -/
def getYieldCurvePoints (rate : ℚ → ℚ) (ok : ℚ → Bool)
    (minMaturity maxMaturity : ℚ) (numPoints : ℕ) : List (ℚ × ℚ) :=
  let step := maxMaturity / ((numPoints : ℚ) - 1)
  (List.range numPoints).filterMap (fun (i : ℕ) =>
    let t := minMaturity + (i : ℚ) * step
    let r := rate t
    if ok r then some (t, r * 100) else none)

/-! ### Calendar dates and the coupon schedule

JS `Date` values used by the coupon engine are date-only (midnight) values;
they are modelled as calendar triples with the JS conventions (0-based
month).  All dates constructed by the embedded functions have
`month ∈ [0, 11]` and `day ∈ [1, 31]`, for which the lexicographic key below
orders dates exactly as JS timestamp comparison does. -/

/-- A JS `Date` at midnight, as a calendar triple (`month` is 0-based). -/
structure JDate where
  year : ℤ
  month : ℤ
  day : ℤ
  deriving DecidableEq, Repr

/-- Linearization of the calendar order (valid for in-range fields):
comparing keys is comparing JS timestamps. -/
def jKey (d : JDate) : ℤ := (d.year * 12 + d.month) * 32 + d.day

/-- JS `d1 <= d2` on dates. -/
def jle (a b : JDate) : Bool := decide (jKey a ≤ jKey b)

/-- JS `d1 < d2` on dates. -/
def jlt (a b : JDate) : Bool := decide (jKey a < jKey b)

/-- Gregorian leap-year test, as used by JS `Date`. -/
def isLeapYear (y : ℤ) : Bool :=
  (y % 4 == 0 && y % 100 != 0) || y % 400 == 0

/-- Number of days of month `m` (0-based) of year `y`. -/
def daysInMonth (y m : ℤ) : ℤ :=
  if m = 1 then (if isLeapYear y then 29 else 28)
  else if m = 3 ∨ m = 5 ∨ m = 8 ∨ m = 10 then 30
  else 31

/-- Net effect of the date-helper's `addMonths`/`subtractMonths` body:
`result.setMonth(t)` followed by `if (result.getDate() !== originalDay)
result.setDate(0)`, i.e. move to month index `t` (with year carry) and clamp
the day of month to the destination month's length. -/
def setMonthClamped (d : JDate) (t : ℤ) : JDate :=
  let y := d.year + t / 12
  let m := t % 12
  ⟨y, m, min d.day (daysInMonth y m)⟩

/-- Embedding of `addMonths(date, months)` (month-end clamping). -/
def addMonths (d : JDate) (months : ℤ) : JDate :=
  setMonthClamped d (d.month + months)

/-- Embedding of `subtractMonths(date, months)` (month-end clamping). -/
def subtractMonths (d : JDate) (months : ℤ) : JDate :=
  setMonthClamped d (d.month - months)

/-- Error kinds thrown by `generateCouponDates` (one constructor per
`throw` site). -/
inductive CouponErr where
  | invalidMaturity
  | scheduleOverflow
  | emptySchedule
  | tooFewDates
  | beforeFirstCoupon
  | afterMaturity
  | noEnclosingPeriod
  | lastAfterReference
  | nextNotAfterReference
  deriving DecidableEq, Repr

/-- The enclosing coupon period located for a reference date, together with
the full generated schedule. -/
structure CouponPeriod where
  lastCoupon : JDate
  nextCoupon : JDate
  allCouponDates : List JDate
  deriving DecidableEq, Repr

/-- The forward walk of `generateCouponDates` from the first coupon date:
`while (currentDate <= maturityDate) { push; if equal break;
currentDate = addMonths(currentDate, monthsPerPeriod); if length > 300
throw }`.  The fuel starts at 400 and cannot run out before the 300-length
guard fires, since every pass appends a date. -/
def fwdWalk (maturity : JDate) (mpp : ℤ) : ℕ → JDate → List JDate →
    Except CouponErr (List JDate)
  | 0, _, _ => .error .scheduleOverflow
  | fuel+1, cur, acc =>
    if jle cur maturity then
      let acc2 := acc ++ [cur]
      if cur = maturity then .ok acc2
      else if 300 < acc2.length then .error .scheduleOverflow
      else fwdWalk maturity mpp fuel (addMonths cur mpp) acc2
    else .ok acc

/-- The backward extension of `generateCouponDates` when the reference date
precedes the first coupon: `while (priorDate < referenceDate &&
couponDates.length < 300) { unshift; priorDate = subtractMonths(...) }`
followed by one more unshift when `priorDate < referenceDate` still holds. -/
def backWalk (ref : JDate) (mpp : ℤ) : ℕ → JDate → List JDate → List JDate
  | 0, _, acc => acc
  | fuel+1, prior, acc =>
    if jlt prior ref ∧ acc.length < 300 then
      backWalk ref mpp fuel (subtractMonths prior mpp) (prior :: acc)
    else if jlt prior ref then prior :: acc
    else acc

/-- The fallback of `generateCouponDates` without a first coupon date:
`for (i = 0; i < 300; i++) { currentDate = subtractMonths(...); unshift;
if (currentDate < referenceDate) break }`. -/
def backFromMaturity (ref : JDate) (mpp : ℤ) : ℕ → JDate → List JDate → List JDate
  | 0, _, acc => acc
  | fuel+1, cur, acc =>
    let cur2 := subtractMonths cur mpp
    let acc2 := cur2 :: acc
    if jlt cur2 ref then acc2
    else backFromMaturity ref mpp fuel cur2 acc2

/-- The schedule-construction stage of `generateCouponDates` (everything up
to and including the backward extension). -/
def buildCouponDates (maturity : JDate) (firstCouponDate : Option JDate)
    (mpp : ℤ) (ref : JDate) : Except CouponErr (List JDate) :=
  match firstCouponDate with
  | some fc =>
    match fwdWalk maturity mpp 400 fc [] with
    | .error e => .error e
    | .ok fwd =>
      match fwd.getLast? with
      | none => .error .emptySchedule
      | some last =>
        let fwd2 := if last = maturity then fwd else fwd ++ [maturity]
        .ok (if 0 < fwd2.length ∧ jlt ref (fwd2.headD maturity) then
               backWalk ref mpp 400 (subtractMonths fc mpp) fwd2
             else fwd2)
  | none => .ok (backFromMaturity ref mpp 300 maturity [maturity])

/-- The scan of `generateCouponDates` for the adjacent pair with
`couponDates[i] <= referenceDate && couponDates[i+1] > referenceDate`. -/
def findEnclosing (ref : JDate) : List JDate → Option (JDate × JDate)
  | a :: b :: rest =>
      if jle a ref && jlt ref b then some (a, b) else findEnclosing ref (b :: rest)
  | _ => none

/-- The period-selection and validation stage of `generateCouponDates`
(the `couponDates.length < 2` guard, the scan, the error dispatch when no
pair is found, and the two final validations). -/
def selectPeriod (maturity ref : JDate) (couponDates : List JDate) :
    Except CouponErr CouponPeriod :=
  if couponDates.length < 2 then .error .tooFewDates
  else
    match findEnclosing ref couponDates with
    | some (lastC, nextC) =>
        if jlt ref lastC then .error .lastAfterReference
        else if jle nextC ref then .error .nextNotAfterReference
        else .ok ⟨lastC, nextC, couponDates⟩
    | none =>
        if jlt ref (couponDates.headD maturity) then .error .beforeFirstCoupon
        else if jlt (couponDates.getLastD maturity) ref then .error .afterMaturity
        else .error .noEnclosingPeriod

/-- Embedding of `generateCouponDates(maturityDate, firstCouponDate,
frequency, referenceDate)`; an invalid/absent date argument is `none`. -/
def generateCouponDates (maturityDate firstCouponDate : Option JDate)
    (frequency : ℤ) (referenceDate : JDate) : Except CouponErr CouponPeriod :=
  match maturityDate with
  | none => .error .invalidMaturity
  | some maturity =>
    match buildCouponDates maturity firstCouponDate (12 / frequency) referenceDate with
    | .error e => .error e
    | .ok couponDates => selectPeriod maturity referenceDate couponDates

/-! ### Pricing

`calculatePricing` from the bond-calculation module: the zero-coupon branch
returns zero accrued interest outright; the coupon branch resolves the
enclosing period and applies the Actual/Actual accrual fraction. -/

/-- Serial day number of a calendar date (days since 1970-01-01), used to
model timestamp subtraction of midnight dates divided by a day's
milliseconds. -/
def toSerial (d : JDate) : ℤ :=
  let m1 := d.month + 1
  let y := d.year - (if m1 ≤ 2 then 1 else 0)
  let era := (if 0 ≤ y then y else y - 399) / 400
  let yoe := y - era * 400
  let m2 := if 2 < m1 then m1 - 3 else m1 + 9
  let doy := (153 * m2 + 2) / 5 + d.day - 1
  let doe := yoe * 365 + yoe / 4 - yoe / 100 + doy
  era * 146097 + doe - 719468

/-- The date-helper `daysBetween` applied to two midnight dates: the exact
(possibly negative) day difference. -/
def daysBetweenDates (d1 d2 : JDate) : ℚ := ((toSerial d2 - toSerial d1 : ℤ) : ℚ)

/-- `roundTo(num, decimals)`: `Math.round(num * 10^d) / 10^d`. -/
def roundTo (num : ℚ) (decimals : ℕ) : ℚ :=
  (jsRound (num * 10 ^ decimals) : ℚ) / 10 ^ decimals

/-- The pricing breakdown returned by `calculatePricing` (the
`calculation_details` display block is omitted: it carries no further
computed state). -/
structure PricingResult where
  clean_price : ℚ
  accrued_interest : ℚ
  dirty_price : ℚ
  f_offset : ℚ
  deriving DecidableEq, Repr

/-- Embedding of `calculatePricing({cleanPrice, couponRate, securityType,
maturityDate, referenceDate, firstCouponDate, frequency})`. -/
def calculatePricing (cleanPrice couponRate : ℚ) (securityType : String)
    (maturityDate : Option JDate) (referenceDate : JDate)
    (firstCouponDate : Option JDate) (frequency : ℤ) :
    Except CouponErr PricingResult :=
  if securityType = "MARKET BASED BILL" ∨ couponRate = 0 then
    .ok ⟨cleanPrice, 0, cleanPrice, 0⟩
  else
    match generateCouponDates maturityDate firstCouponDate frequency referenceDate with
    | .error e => .error e
    | .ok cp =>
      let daysInPeriod := daysBetweenDates cp.lastCoupon cp.nextCoupon
      let daysAccrued := daysBetweenDates cp.lastCoupon referenceDate
      let f := daysAccrued / daysInPeriod
      let couponPayment := couponRate / (frequency : ℚ)
      let accruedInterest := couponPayment * 100 * f
      let dirtyPrice := cleanPrice + accruedInterest
      .ok ⟨roundTo cleanPrice 6, roundTo accruedInterest 6,
           roundTo dirtyPrice 6, roundTo f 8⟩

/-! ### Yield-to-maturity solver

`yieldFromPrice` runs Newton-Raphson with a numerical central-difference
derivative and falls back to `bisectionMethod` on the bracket
`[-0.02, 0.30]` when the derivative is near zero, when an iterate leaves
`[-0.05, 0.50]`, or when the iteration budget is exhausted.  The bond-price
objective is a closure over the cashflow schedule; it is abstracted here as
the function argument `f`, exactly as `bisectionMethod(func, ...)` receives
it. -/

/-- Error kind of the bisection fallback. -/
inductive SolverErr where
  | noRootInInterval
  deriving DecidableEq, Repr

/-- `tolerance = 1e-8` of `yieldFromPrice`. -/
def newtonTol : ℚ := 1/100000000

/-- The near-zero-derivative threshold `1e-10`. -/
def derivEps : ℚ := 1/10000000000

/-- The central-difference step `h = 1e-6`. -/
def derivStep : ℚ := 1/1000000

/-- `derivative(ytm, h)`: `(objective(ytm + h) - objective(ytm - h)) / (2h)`. -/
def numDerivative (f : ℚ → ℚ) (ytm : ℚ) : ℚ :=
  (f (ytm + derivStep) - f (ytm - derivStep)) / (2 * derivStep)

/-- The bisection `for` loop (up to `fuel` halvings; on exhaustion the
current midpoint is returned, mirroring the loop's fall-through return). -/
def bisectLoop (f : ℚ → ℚ) (tol : ℚ) : ℕ → ℚ → ℚ → ℚ → ℚ → ℚ
  | 0, a, b, _, _ => (a + b) / 2
  | fuel+1, a, b, fa, fb =>
    if |f ((a + b) / 2)| < tol ∨ |b - a| < tol then (a + b) / 2
    else if fa * f ((a + b) / 2) < 0 then
      bisectLoop f tol fuel a ((a + b) / 2) fa (f ((a + b) / 2))
    else bisectLoop f tol fuel ((a + b) / 2) b (f ((a + b) / 2)) fb

/-- Embedding of `bisectionMethod(func, a, b, tolerance, maxIterations)`:
when the endpoint values have a strictly positive product (`fa * fb > 0`)
the bracket is widened to `[-0.05, 0.50]`; if the product is still strictly
positive there, it throws `no root in interval`; otherwise it bisects. -/
def bisectionMethod (f : ℚ → ℚ) (a b tol : ℚ) (maxIter : ℕ) : Except SolverErr ℚ :=
  if 0 < f a * f b then
    if 0 < f (-1/20) * f (1/2) then .error .noRootInInterval
    else .ok (bisectLoop f tol maxIter (-1/20) (1/2) (f (-1/20)) (f (1/2)))
  else .ok (bisectLoop f tol maxIter a b (f a) (f b))

/-- The Newton-Raphson loop of `yieldFromPrice`: per iteration it tests
`|f(ytm)| < tolerance`, falls back to bisection on `[-0.02, 0.30]` when
`|derivative| < 1e-10`, computes the Newton update, falls back to bisection
when the update leaves `[-0.05, 0.50]`, accepts on a small step, and
otherwise continues; on exhausting the iteration budget it falls back to
bisection. -/
def newtonLoop (f : ℚ → ℚ) : ℕ → ℚ → Except SolverErr ℚ
  | 0, _ => bisectionMethod f (-1/50) (3/10) newtonTol 100
  | fuel+1, ytm =>
    if |f ytm| < newtonTol then .ok ytm
    else if |numDerivative f ytm| < derivEps then
      bisectionMethod f (-1/50) (3/10) newtonTol 100
    else if ytm - f ytm / numDerivative f ytm < -1/20
        ∨ 1/2 < ytm - f ytm / numDerivative f ytm then
      bisectionMethod f (-1/50) (3/10) newtonTol 100
    else if |ytm - f ytm / numDerivative f ytm - ytm| < newtonTol then
      .ok (ytm - f ytm / numDerivative f ytm)
    else newtonLoop f fuel (ytm - f ytm / numDerivative f ytm)

/-- Entry point of the solver: the initial guess is clamped to
`[-0.02, 0.30]` and the Newton loop runs for up to 100 iterations. -/
def yieldFromPriceSolve (f : ℚ → ℚ) (initialGuess : ℚ) : Except SolverErr ℚ :=
  newtonLoop f 100 (max (min initialGuess (3/10)) (-1/50))

/-- Whether an `Except` result is a success. -/
def isOkE {ε β : Type} : Except ε β → Bool
  | .ok _ => true
  | .error _ => false

/-! ### Nelder-Mead simplex optimizer

Embedding of the `nelderMead(objective, initial, bounds, options)` method of
the NSS curve calculator, over an arbitrary linearly ordered field (so that
concrete runs can be computed exactly over `ℚ`).  Alongside the simplex, the
run carries the list of every point passed to the objective function (the
ghost trace needed to state the clipping claim); the returned record is
untouched by the instrumentation. -/

section NelderMead

variable {α : Type} [LinearOrderedField α]

/-- `clipToBounds(x)`:
`x.map((val, i) => max(bounds[i][0], min(bounds[i][1], val)))`. -/
def clipToBounds (bounds : List (α × α)) (x : List α) : List α :=
  List.zipWith (fun v bi => max bi.1 (min bi.2 v)) x bounds

/-- The initial simplex: the clipped initial guess followed by, for each
dimension `i`, the initial guess perturbed in dimension `i` by 5% of that
dimension's bound range, clipped. -/
def initialSimplex (initial : List α) (bounds : List (α × α)) : List (List α) :=
  clipToBounds bounds initial ::
    (List.range initial.length).map (fun (i : ℕ) =>
      clipToBounds bounds
        (initial.mapIdx (fun j v =>
          if j = i then
            v + ((bounds.getD i (0, 0)).2 - (bounds.getD i (0, 0)).1) * (1/20)
          else v)))

/-- The comparator of the per-iteration sort — ascending cached value
(`(a, b) => values[a] - values[b]`, a stable sort on a stable JS sort). -/
def byValue : (List α × α) → (List α × α) → Prop := fun p q => p.2 ≤ q.2

instance : DecidableRel (byValue (α := α)) :=
  fun p q => inferInstanceAs (Decidable (p.2 ≤ q.2))

instance : IsTotal (List α × α) (byValue (α := α)) := ⟨fun p q => le_total p.2 q.2⟩

instance : IsTrans (List α × α) (byValue (α := α)) :=
  ⟨fun _ _ _ h1 h2 => le_trans h1 h2⟩

/-- Sorting the simplex (paired with cached values) by ascending value. -/
def sortSimplex (s : List (List α × α)) : List (List α × α) :=
  List.insertionSort byValue s

/-- The centroid of the best `n` vertices:
`centroid[j] = Σ_{i<n} simplex[i][j] / n` starting from the zero vector. -/
def centroidOf (n : ℕ) (s : List (List α × α)) : List α :=
  (s.take n).foldl (fun acc p => List.zipWith (fun c x => c + x / (n : α)) acc p.1)
    (List.replicate n 0)

/-- One iteration body of the sorted simplex (reflection with coefficient 1,
expansion 2, contraction 1/2, shrink 1/2, every candidate clipped before
evaluation); returns the updated simplex and the list of points passed to
the objective during the iteration. -/
def nmStep (f : List α → α) (bounds : List (α × α)) (n : ℕ)
    (s : List (List α × α)) : List (List α × α) × List (List α) :=
  let centroid := centroidOf n s
  let worst := s.getD n ([], 0)
  let bestV := (s.getD 0 ([], 0)).2
  let secondV := (s.getD (n - 1) ([], 0)).2
  let rC := clipToBounds bounds
    (List.zipWith (fun c w => c + 1 * (c - w)) centroid worst.1)
  let rV := f rC
  if rV < secondV ∧ bestV ≤ rV then
    (s.set n (rC, rV), [rC])
  else if rV < bestV then
    let eC := clipToBounds bounds
      (List.zipWith (fun c r => c + 2 * (r - c)) centroid rC)
    let eV := f eC
    if eV < rV then (s.set n (eC, eV), [rC, eC])
    else (s.set n (rC, rV), [rC, eC])
  else
    let cC := clipToBounds bounds
      (List.zipWith (fun c w => c + (1/2) * (w - c)) centroid worst.1)
    let cV := f cC
    if cV < worst.2 then (s.set n (cC, cV), [rC, cC])
    else
      match s with
      | [] => ([], [rC, cC])
      | b0 :: rest =>
        let shrunk := rest.map (fun p =>
          let q := clipToBounds bounds
            (List.zipWith (fun x bb => bb + (1/2) * (x - bb)) p.1 b0.1)
          (q, f q))
        (b0 :: shrunk, rC :: cC :: shrunk.map (fun p => p.1))

/-- The main iteration loop: sort, test `values[n] - values[0] < tol`
(breaking with the sorted simplex and the 1-based iteration count), else
perform one step; on fuel exhaustion return the simplex as the last step
left it, unsorted.  The third component accumulates every objective
evaluation of the loop. -/
def nmRun (f : List α → α) (bounds : List (α × α)) (n : ℕ) (tol : α) :
    ℕ → List (List α × α) → ℕ → List (List α) →
    List (List α × α) × ℕ × List (List α)
  | 0, s, count, trace => (s, count, trace)
  | fuel+1, s, count, trace =>
    if ((sortSimplex s).getD n ([], 0)).2 - ((sortSimplex s).getD 0 ([], 0)).2 < tol then
      (sortSimplex s, count + 1, trace)
    else
      nmRun f bounds n tol fuel (nmStep f bounds n (sortSimplex s)).1 (count + 1)
        (trace ++ (nmStep f bounds n (sortSimplex s)).2)

/-- The full pipeline: build and evaluate the initial simplex, then run the
loop with `n = initial.length`. -/
def nmRunFull (f : List α → α) (initial : List α) (bounds : List (α × α))
    (maxIter : ℕ) (tol : α) : List (List α × α) × ℕ × List (List α) :=
  nmRun f bounds initial.length tol maxIter
    ((initialSimplex initial bounds).map (fun x => (x, f x))) 0 []

/-- Embedding of `nelderMead(objective, initial, bounds, options)`: returns
`{x: simplex[0], fx: values[0], iterations}` of the final state. -/
def nelderMead (f : List α → α) (initial : List α) (bounds : List (α × α))
    (maxIter : ℕ) (tol : α) : NMResult α :=
  ⟨((nmRunFull f initial bounds maxIter tol).1.getD 0 ([], 0)).1,
   ((nmRunFull f initial bounds maxIter tol).1.getD 0 ([], 0)).2,
   (nmRunFull f initial bounds maxIter tol).2.1⟩

/-- Every point passed to the objective over the whole call: the initial
simplex vertices followed by the loop's evaluations. -/
def nelderMeadEvals (f : List α → α) (initial : List α) (bounds : List (α × α))
    (maxIter : ℕ) (tol : α) : List (List α) :=
  initialSimplex initial bounds ++ (nmRunFull f initial bounds maxIter tol).2.2

/-- Membership of a point in the bounds box: same dimension, and each
coordinate between its `[min, max]` pair. -/
def insideBounds (bounds : List (α × α)) (p : List α) : Bool :=
  p.length == bounds.length &&
    (List.zip bounds p).all (fun bp => decide (bp.1.1 ≤ bp.2) && decide (bp.2 ≤ bp.1.2))

/-- The invariant carried by the optimizer state: the simplex has `n + 1`
vertices, every cached value is the objective at its vertex, and every
vertex lies inside the bounds box. -/
def NMInv (f : List α → α) (bounds : List (α × α)) (n : ℕ)
    (s : List (List α × α)) : Prop :=
  s.length = n + 1 ∧ ∀ pv ∈ s, pv.2 = f pv.1 ∧ insideBounds bounds pv.1 = true

end NelderMead

end Securities

namespace Securities

/-! ## Theorems -/

/-- C1: For every maturity `tau` and parameter vector, `nssCurve` first
replaces `tau` by the small positive epsilon `0.0001` when `tau < 0.0001`
and replaces `lambda1` (resp. `lambda2`) by the positive floor `0.1` when it
is `≤ 0`, and then returns exactly the spec's NSS formula evaluated at the
clamped arguments.  The clamped maturity and decay parameters are strictly
positive, so the divisors `tau/lambda` are nonzero and the result is a
well-defined (finite) real number for every input, including `tau = 0` and
non-positive lambdas. -/
theorem nssCurve_clamped_formula (tau theta0 theta1 theta2 theta3 lambda1 lambda2 : ℝ) :
    nssCurve tau theta0 theta1 theta2 theta3 lambda1 lambda2
      = nssFormula (clampTau tau) theta0 theta1 theta2 theta3
          (clampLambda lambda1) (clampLambda lambda2)
    ∧ 0 < clampTau tau ∧ 0 < clampLambda lambda1 ∧ 0 < clampLambda lambda2
    ∧ clampTau tau / clampLambda lambda1 ≠ 0
    ∧ clampTau tau / clampLambda lambda2 ≠ 0 := by
  have htau : 0 < clampTau tau := by
    unfold clampTau
    split
    · norm_num
    · linarith [not_lt.mp (by assumption : ¬ tau < 1/10000)]
  have hl1 : 0 < clampLambda lambda1 := by
    unfold clampLambda
    split
    · norm_num
    · exact lt_of_not_le (by assumption)
  have hl2 : 0 < clampLambda lambda2 := by
    unfold clampLambda
    split
    · norm_num
    · exact lt_of_not_le (by assumption)
  refine ⟨rfl, htau, hl1, hl2, ?_, ?_⟩
  · exact ne_of_gt (div_pos htau hl1)
  · exact ne_of_gt (div_pos htau hl2)

/-- C6 counterexample: `daysBetween` does not fail on a reversed pair of
valid dates; it returns the negative value `-1` for dates one day apart in
the wrong order, and it returns the fractional value `1/2` for timestamps
half a day apart; the rounded variant likewise returns `-1`. -/
theorem daysBetween_no_validation_cex :
    daysBetween 86400000 0 = -1
    ∧ daysBetween 0 43200000 = 1/2
    ∧ daysBetweenRounded 86400000 0 = -1 := by
  refine ⟨?_, ?_, ?_⟩ <;> norm_num [daysBetween, daysBetweenRounded, jsRound]

/-- C6 (amended): it is the companion `daysBetween2` that implements the
claimed contract: for valid dates in forward order it returns the rounded
actual day count, which is a nonnegative integer; it fails with the
range error for every pair with `d2 < d1`; and it fails with the invalid-date
error whenever either date is invalid. -/
theorem daysBetween2_contract (t1 t2 : ℤ) (d : Option ℤ) :
    (t1 ≤ t2 →
      daysBetween2 (some t1) (some t2)
          = .ok (jsRound (((t2 : ℚ) - (t1 : ℚ)) / (24 * 60 * 60 * 1000)))
      ∧ 0 ≤ jsRound (((t2 : ℚ) - (t1 : ℚ)) / (24 * 60 * 60 * 1000)))
    ∧ (t2 < t1 → daysBetween2 (some t1) (some t2) = .error .invalidRange)
    ∧ daysBetween2 none d = .error .invalidDate
    ∧ daysBetween2 d none = .error .invalidDate := by
  refine ⟨?_, ?_, ?_, ?_⟩
  · intro h
    constructor
    · simp [daysBetween2, not_lt.mpr h]
    · have hnum : (0 : ℚ) ≤ ((t2 : ℚ) - (t1 : ℚ)) / (24 * 60 * 60 * 1000) := by
        apply div_nonneg
        · exact sub_nonneg.mpr (by exact_mod_cast h)
        · norm_num
      have h2 : (0 : ℚ) ≤ ((t2 : ℚ) - (t1 : ℚ)) / (24 * 60 * 60 * 1000) + 1/2 := by
        linarith
      exact Int.floor_nonneg.mpr (le_trans (by norm_num) h2)
  · intro hlt
    simp [daysBetween2, hlt]
  · cases d <;> rfl
  · cases d <;> rfl

/-- C6 witness: the amended contract at concrete inputs: dates two days
apart in forward order give the exact nonnegative integer `2`. -/
theorem daysBetween2_contract_witness :
    (0 : ℤ) ≤ 172800000
    ∧ daysBetween2 (some 0) (some 172800000)
        = .ok (jsRound ((((172800000 : ℤ) : ℚ) - ((0 : ℤ) : ℚ)) / (24 * 60 * 60 * 1000))) := by
  refine ⟨by norm_num, ?_⟩
  exact ((daysBetween2_contract 0 172800000 none).1 (by norm_num)).1

/-- C10: the analyzer's `validateCUSIP` accepts exactly the 9-character
strings consisting of five digits, then three characters each a digit or an
uppercase letter, then a digit (the language of `^[0-9]{5}[0-9A-Z]{3}[0-9]$`);
the chat variant `validateCUSIP2` accepts exactly the 9-character strings of
digits and uppercase letters (the language of `^[A-Z0-9]{9}$`). -/
theorem validateCUSIP_characterization (s : String) :
    (validateCUSIP s = true ↔
      ∃ c0 c1 c2 c3 c4 c5 c6 c7 c8,
        s.toList = [c0, c1, c2, c3, c4, c5, c6, c7, c8]
        ∧ c0.isDigit ∧ c1.isDigit ∧ c2.isDigit ∧ c3.isDigit ∧ c4.isDigit
        ∧ (c5.isDigit ∨ c5.isUpper) ∧ (c6.isDigit ∨ c6.isUpper)
        ∧ (c7.isDigit ∨ c7.isUpper) ∧ c8.isDigit)
    ∧ (validateCUSIP2 s = true ↔
        s.toList.length = 9 ∧ ∀ c ∈ s.toList, c.isUpper ∨ c.isDigit) := by
  constructor
  · constructor
    · intro h
      unfold validateCUSIP at h
      split at h
      · exact absurd h (by simp)
      · unfold cusipPatternTest at h
        split at h
        · next c0 c1 c2 c3 c4 c5 c6 c7 c8 heq =>
            refine ⟨c0, c1, c2, c3, c4, c5, c6, c7, c8, heq, ?_⟩
            simp only [Bool.and_eq_true, Bool.or_eq_true] at h
            tauto
        · exact absurd h (by simp)
    · rintro ⟨c0, c1, c2, c3, c4, c5, c6, c7, c8, heq, h0, h1, h2, h3, h4, h5, h6, h7, h8⟩
      have hlen : s.length = 9 := by
        have h9 : s.toList.length = 9 := by rw [heq]; rfl
        exact h9
      unfold validateCUSIP cusipPatternTest
      rw [if_neg (by simp [hlen]), heq]
      simp only [Bool.and_eq_true, Bool.or_eq_true]
      tauto
  · unfold validateCUSIP2
    constructor
    · intro h
      simp only [Bool.and_eq_true, beq_iff_eq, List.all_eq_true, Bool.or_eq_true] at h
      exact ⟨h.1, h.2⟩
    · intro h
      simp only [Bool.and_eq_true, beq_iff_eq, List.all_eq_true, Bool.or_eq_true]
      exact ⟨h.1, h.2⟩

/-- C7: for every optimizer, initial point and valid target maturity, a data
set of fewer than 6 market observations makes `calculateSpotRate` fail with
the insufficient-data error without invoking the optimizer (the result does
not depend on the optimizer argument, so the NSS objective is never
evaluated and no fitted parameters are produced); likewise `getMarketData`
rejects result sets of fewer than 6 rows up front. -/
theorem insufficientData_guard
    (optimizer : (List ℝ → ℝ) → List ℝ → NMResult ℝ)
    (marketData : List (MarketPoint ℝ)) (initialParams : List ℝ) (t : ℝ)
    (rows : List SecRow)
    (ht1 : 0 < t) (ht2 : t ≤ 30) (hlen : marketData.length < 6)
    (hrows : rows.length < 6) :
    calculateSpotRate optimizer marketData initialParams t = .error .insufficientData
    ∧ getMarketData rows = .error .insufficientData := by
  constructor
  · unfold calculateSpotRate
    rw [if_neg, if_pos hlen]
    rw [not_or]
    exact ⟨not_le.mpr ht1, not_lt.mpr ht2⟩
  · unfold getMarketData
    rw [if_pos hrows]

/-- C7 witness: a fit over exactly 3 observations fails with the
insufficient-data error, for an arbitrary concrete optimizer. -/
theorem insufficientData_guard_witness :
    (0 : ℝ) < 7 ∧ (7 : ℝ) ≤ 30
    ∧ ([⟨1, 4⟩, ⟨2, 4⟩, ⟨3, 4⟩] : List (MarketPoint ℝ)).length < 6
    ∧ ([] : List SecRow).length < 6
    ∧ calculateSpotRate (fun _ p => ⟨p, 0, 0⟩) [⟨1, 4⟩, ⟨2, 4⟩, ⟨3, 4⟩] [] 7
        = .error .insufficientData
    ∧ getMarketData [] = .error .insufficientData := by
  have h := insufficientData_guard (fun _ p => ⟨p, 0, 0⟩) [⟨1, 4⟩, ⟨2, 4⟩, ⟨3, 4⟩] [] 7 []
    (by norm_num) (by norm_num) (by simp) (by simp)
  exact ⟨by norm_num, by norm_num, by simp, by simp, h.1, h.2⟩

/-- C9 (amended): every point emitted by the yield-curve generation loop has
a rate that passed the finiteness check (points failing it are skipped, never
emitted as null), equal to the NSS rate at its maturity times 100; the
emitted maturities are strictly increasing and lie on the evenly spaced grid
`minMaturity + i * (maxMaturity/(numPoints-1))`; but the grid runs from
`minMaturity` only up to `minMaturity + maxMaturity`, so emitted maturities
are bounded by `minMaturity + maxMaturity` rather than by the observed
maximum term `maxMaturity` (see the counterexample for the overshoot). -/
theorem getYieldCurve_grid (rate : ℚ → ℚ) (ok : ℚ → Bool) (minM maxM : ℚ) (n : ℕ)
    (hn : 2 ≤ n) (hmax : 0 < maxM) :
    (∀ p ∈ getYieldCurvePoints rate ok minM maxM n,
        ok (rate p.1) = true ∧ p.2 = rate p.1 * 100
        ∧ ∃ i < n, p.1 = minM + (i : ℚ) * (maxM / ((n : ℚ) - 1)))
    ∧ List.Pairwise (fun p q : ℚ × ℚ => p.1 < q.1)
        (getYieldCurvePoints rate ok minM maxM n)
    ∧ ∀ p ∈ getYieldCurvePoints rate ok minM maxM n, p.1 ≤ minM + maxM := by
  have hn1 : (1 : ℚ) ≤ (n : ℚ) - 1 := by
    have : (2 : ℚ) ≤ (n : ℚ) := by exact_mod_cast hn
    linarith
  have hne : ((n : ℚ) - 1) ≠ 0 := by linarith
  have hstep : 0 < maxM / ((n : ℚ) - 1) := div_pos hmax (by linarith)
  have hmem : ∀ p ∈ getYieldCurvePoints rate ok minM maxM n,
      ok (rate p.1) = true ∧ p.2 = rate p.1 * 100
      ∧ ∃ i < n, p.1 = minM + (i : ℚ) * (maxM / ((n : ℚ) - 1)) := by
    intro p hp
    unfold getYieldCurvePoints at hp
    rcases List.mem_filterMap.mp hp with ⟨i, hi, hfi⟩
    by_cases hok : ok (rate (minM + (i : ℚ) * (maxM / ((n : ℚ) - 1)))) = true
    · rw [if_pos hok] at hfi
      cases hfi
      exact ⟨hok, rfl, i, List.mem_range.mp hi, rfl⟩
    · rw [if_neg hok] at hfi
      cases hfi
  refine ⟨hmem, ?_, ?_⟩
  · unfold getYieldCurvePoints
    refine List.Pairwise.filterMap _ ?_ (List.pairwise_lt_range n)
    intro i j hij x hx y hy
    have hx1 : x.1 = minM + (i : ℚ) * (maxM / ((n : ℚ) - 1)) := by
      by_cases hok : ok (rate (minM + (i : ℚ) * (maxM / ((n : ℚ) - 1)))) = true
      · rw [if_pos hok] at hx; cases hx; rfl
      · rw [if_neg hok] at hx; cases hx
    have hy1 : y.1 = minM + (j : ℚ) * (maxM / ((n : ℚ) - 1)) := by
      by_cases hok : ok (rate (minM + (j : ℚ) * (maxM / ((n : ℚ) - 1)))) = true
      · rw [if_pos hok] at hy; cases hy; rfl
      · rw [if_neg hok] at hy; cases hy
    rw [hx1, hy1]
    have : (i : ℚ) < (j : ℚ) := by exact_mod_cast hij
    have := mul_lt_mul_of_pos_right this hstep
    linarith
  · intro p hp
    rcases (hmem p hp).2.2 with ⟨i, hi, hpi⟩
    have hik : (i : ℚ) ≤ (n : ℚ) - 1 := by
      have : (i : ℚ) + 1 ≤ (n : ℚ) := by exact_mod_cast Nat.succ_le_of_lt hi
      linarith
    have hmono : (i : ℚ) * (maxM / ((n : ℚ) - 1)) ≤ ((n : ℚ) - 1) * (maxM / ((n : ℚ) - 1)) :=
      mul_le_mul_of_nonneg_right hik (le_of_lt hstep)
    have hcancel : ((n : ℚ) - 1) * (maxM / ((n : ℚ) - 1)) = maxM := by
      field_simp
    rw [hpi]
    rw [hcancel] at hmono
    linarith

/-- C9 counterexample: with two points, a minimum maturity of `0.01` and an
observed maximum term of `10`, the generation loop emits the maturity
`10.01`, which exceeds the observed maximum term: the grid does not run "to
the observed maximum" but to `minMaturity + maxMaturity` (here the
rate function and finiteness test are a constant rate and the
always-finite test, under which nothing is skipped). -/
theorem getYieldCurve_overshoots_cex :
    getYieldCurvePoints (fun _ => 0) (fun _ => true) (1/100) 10 2
      = [(1/100, 0), (1001/100, 0)]
    ∧ (10 : ℚ) < 1001/100 := by
  constructor
  · unfold getYieldCurvePoints
    norm_num [List.range_succ, List.filterMap_cons]
  · norm_num

/-- Helper: a pair found by the enclosing-period scan satisfies the scan's
conditions and is an adjacent pair of the scanned schedule. -/
theorem findEnclosing_adjacent (ref : JDate) :
    ∀ (l : List JDate) (a b : JDate), findEnclosing ref l = some (a, b) →
      jle a ref = true ∧ jlt ref b = true ∧ [a, b] <:+: l := by
  intro l
  induction l with
  | nil => intro a b h; simp [findEnclosing] at h
  | cons x xs ih =>
    intro a b h
    cases xs with
    | nil => simp [findEnclosing] at h
    | cons y rest =>
      by_cases hc : (jle x ref && jlt ref y) = true
      · rw [findEnclosing, if_pos hc] at h
        injection h with h2
        obtain ⟨rfl, rfl⟩ := Prod.mk.injEq x y a b ▸ h2
        rcases Bool.and_eq_true _ _ |>.mp hc with ⟨h3, h4⟩
        exact ⟨h3, h4, [], rest, rfl⟩
      · rw [findEnclosing, if_neg hc] at h
        obtain ⟨h1, h2, s, t, hst⟩ := ih a b h
        exact ⟨h1, h2, x :: s, t, by rw [← hst]; rfl⟩

/-- Helper: a successfully selected coupon period encloses the reference
date and is an adjacent pair of the returned schedule. -/
theorem selectPeriod_ok (maturity ref : JDate) (l : List JDate) (p : CouponPeriod)
    (h : selectPeriod maturity ref l = .ok p) :
    jle p.lastCoupon ref = true ∧ jlt ref p.nextCoupon = true
    ∧ [p.lastCoupon, p.nextCoupon] <:+: p.allCouponDates := by
  unfold selectPeriod at h
  by_cases hlen : l.length < 2
  · rw [if_pos hlen] at h; simp at h
  · rw [if_neg hlen] at h
    cases hfe : findEnclosing ref l with
    | none => rw [hfe] at h; split_ifs at h
    | some pr =>
      obtain ⟨lastC, nextC⟩ := pr
      rw [hfe] at h
      dsimp only at h
      split_ifs at h
      injection h with h2
      rw [← h2]
      exact findEnclosing_adjacent ref l lastC nextC hfe

/-- C4 (amended): whenever `generateCouponDates` returns successfully, the
returned period satisfies `lastCoupon <= referenceDate < nextCoupon`, and
`(lastCoupon, nextCoupon)` are adjacent entries of the generated coupon
schedule.  The claim's stronger assertion that `nextCoupon` is exactly one
payment-period (`12/frequency` months, month-end clamped) after `lastCoupon`
does not hold: when the maturity date is not on the first-coupon month grid,
the appended maturity forms a short final stub pair (see the
counterexample). -/
theorem generateCouponDates_encloses (md fcd : Option JDate) (freq : ℤ)
    (ref : JDate) (p : CouponPeriod)
    (h : generateCouponDates md fcd freq ref = .ok p) :
    jle p.lastCoupon ref = true ∧ jlt ref p.nextCoupon = true
    ∧ [p.lastCoupon, p.nextCoupon] <:+: p.allCouponDates := by
  unfold generateCouponDates at h
  cases md with
  | none => simp at h
  | some maturity =>
    have h2 : (match buildCouponDates maturity fcd (12 / freq) ref with
               | .error e => (.error e : Except CouponErr CouponPeriod)
               | .ok dates => selectPeriod maturity ref dates) = .ok p := h
    cases hB : buildCouponDates maturity fcd (12 / freq) ref with
    | error e => rw [hB] at h2; simp at h2
    | ok dates =>
      rw [hB] at h2
      exact selectPeriod_ok maturity ref dates p h2

/-- C4 witness: a regular semi-annual schedule (first coupon 2024-07-15,
maturity 2025-01-15, reference 2024-09-01) succeeds and the returned period
encloses the reference date and is adjacent in the schedule. -/
theorem generateCouponDates_encloses_witness :
    jle (⟨2024, 6, 15⟩ : JDate) ⟨2024, 8, 1⟩ = true
    ∧ jlt (⟨2024, 8, 1⟩ : JDate) ⟨2025, 0, 15⟩ = true
    ∧ [(⟨2024, 6, 15⟩ : JDate), ⟨2025, 0, 15⟩]
        <:+: [(⟨2024, 6, 15⟩ : JDate), ⟨2025, 0, 15⟩] :=
  generateCouponDates_encloses (some ⟨2025, 0, 15⟩) (some ⟨2024, 6, 15⟩) 2
    ⟨2024, 8, 1⟩ ⟨⟨2024, 6, 15⟩, ⟨2025, 0, 15⟩, [⟨2024, 6, 15⟩, ⟨2025, 0, 15⟩]⟩
    (by rfl)

/-- C4 counterexample: first coupon 2024-01-15, maturity 2024-04-15
(a three-month stub at the end of a semi-annual grid), reference 2024-02-01:
the call succeeds with `lastCoupon = 2024-01-15`, `nextCoupon = 2024-04-15`,
but `addMonths(lastCoupon, 12/frequency)` is 2024-07-15, so `nextCoupon` is
not one payment-period after `lastCoupon`. -/
theorem generateCouponDates_stub_period_cex :
    generateCouponDates (some ⟨2024, 3, 15⟩) (some ⟨2024, 0, 15⟩) 2 ⟨2024, 1, 1⟩
      = .ok ⟨⟨2024, 0, 15⟩, ⟨2024, 3, 15⟩, [⟨2024, 0, 15⟩, ⟨2024, 3, 15⟩]⟩
    ∧ addMonths ⟨2024, 0, 15⟩ (12 / 2) ≠ (⟨2024, 3, 15⟩ : JDate) := by
  constructor
  · rfl
  · decide

/-- C5: for every input whose security type is `'MARKET BASED BILL'` or
whose coupon rate equals 0, `calculatePricing` returns accrued interest
exactly 0 and a dirty price exactly equal to the clean price (with
`f_offset` 0), for every reference date and every other field. -/
theorem calculatePricing_bill (cleanPrice couponRate : ℚ) (securityType : String)
    (md : Option JDate) (ref : JDate) (fcd : Option JDate) (freq : ℤ)
    (h : securityType = "MARKET BASED BILL" ∨ couponRate = 0) :
    calculatePricing cleanPrice couponRate securityType md ref fcd freq
      = .ok ⟨cleanPrice, 0, cleanPrice, 0⟩ := by
  unfold calculatePricing
  rw [if_pos h]

/-- C5 witness: a concrete bill (clean price 98.5) gets zero accrued
interest and dirty price equal to clean price. -/
theorem calculatePricing_bill_witness :
    (((("MARKET BASED BILL" : String) = "MARKET BASED BILL") ∨ ((5 : ℚ)/100 = 0)))
    ∧ calculatePricing (197/2) (5/100) "MARKET BASED BILL" none ⟨2025, 10, 19⟩ none 2
        = .ok ⟨197/2, 0, 197/2, 0⟩ :=
  ⟨Or.inl rfl,
    calculatePricing_bill (197/2) (5/100) "MARKET BASED BILL" none
      ⟨2025, 10, 19⟩ none 2 (Or.inl rfl)⟩

section NelderMeadTheorems

variable {α : Type} [LinearOrderedField α]

/-- Helper: an in-range default access hits a member of the list. -/
theorem getD_mem {β : Type} (l : List β) (n : ℕ) (d : β) (h : n < l.length) :
    l.getD n d ∈ l := by
  induction l generalizing n with
  | nil => simp at h
  | cons x xs ih =>
    cases n with
    | zero => exact List.mem_cons_self x xs
    | succ m =>
      exact List.mem_cons_of_mem x (ih m (Nat.lt_of_succ_lt_succ h))

/-- Helper: the box-membership test, characterized. -/
theorem insideBounds_iff (bounds : List (α × α)) (p : List α) :
    insideBounds bounds p = true ↔
      p.length = bounds.length
      ∧ ∀ q ∈ List.zip bounds p, q.1.1 ≤ q.2 ∧ q.2 ≤ q.1.2 := by
  unfold insideBounds
  simp [List.all_eq_true]

/-- Helper: box membership fixes the dimension. -/
theorem insideBounds_length {bounds : List (α × α)} {p : List α}
    (h : insideBounds bounds p = true) : p.length = bounds.length :=
  ((insideBounds_iff bounds p).mp h).1

/-- Helper: clipping a vector of dimension at least the box's lands inside
the box, provided each bound pair is ordered. -/
theorem insideBounds_clipToBounds (bounds : List (α × α)) (x : List α)
    (hb : ∀ p ∈ bounds, p.1 ≤ p.2) (hlen : bounds.length ≤ x.length) :
    insideBounds bounds (clipToBounds bounds x) = true := by
  induction bounds generalizing x with
  | nil =>
    cases x <;> rfl
  | cons b bs ih =>
    cases x with
    | nil => simp at hlen
    | cons v xs =>
      have hb2 : ∀ p ∈ bs, p.1 ≤ p.2 := fun p hp => hb p (List.mem_cons_of_mem b hp)
      have hlen2 : bs.length ≤ xs.length := Nat.le_of_succ_le_succ hlen
      have hbb : b.1 ≤ b.2 := hb b (List.mem_cons_self b bs)
      have hmain := ih xs hb2 hlen2
      rw [insideBounds_iff] at hmain ⊢
      have hcl : clipToBounds (b :: bs) (v :: xs)
          = max b.1 (min b.2 v) :: clipToBounds bs xs := rfl
      rw [hcl]
      constructor
      · simp [hmain.1]
      · intro q hq
        rw [List.zip_cons_cons, List.mem_cons] at hq
        rcases hq with rfl | hq
        · exact ⟨le_max_left _ _, max_le hbb (min_le_left _ _)⟩
        · exact hmain.2 q hq

/-- Helper: dimension of a clipped vector. -/
theorem clipToBounds_length (bounds : List (α × α)) (x : List α) :
    (clipToBounds bounds x).length = min x.length bounds.length :=
  List.length_zipWith _ _ _

/-- Helper: the centroid fold preserves the dimension. -/
theorem centroid_fold_length (n : ℕ) (l : List (List α × α)) :
    ∀ acc : List α, (∀ pv ∈ l, pv.1.length = n) → acc.length = n →
    (l.foldl (fun acc p => List.zipWith (fun c x => c + x / (n : α)) acc p.1)
      acc).length = n := by
  induction l with
  | nil => intro acc _ h; exact h
  | cons p ps ih =>
    intro acc hl hacc
    apply ih
    · exact fun pv hpv => hl pv (List.mem_cons_of_mem p hpv)
    · rw [List.length_zipWith, hacc, hl p (List.mem_cons_self p ps), Nat.min_self]

/-- Helper: the centroid has the simplex dimension. -/
theorem centroidOf_length (n : ℕ) (s : List (List α × α))
    (hs : ∀ pv ∈ s, pv.1.length = n) : (centroidOf n s).length = n := by
  unfold centroidOf
  apply centroid_fold_length
  · exact fun pv hpv => hs pv (List.take_subset n s hpv)
  · exact List.length_replicate n 0

/-- Helper: sorting the simplex preserves the optimizer invariant. -/
theorem sortSimplex_inv {f : List α → α} {bounds : List (α × α)} {n : ℕ}
    {s : List (List α × α)} (h : NMInv f bounds n s) :
    NMInv f bounds n (sortSimplex s) := by
  constructor
  · rw [sortSimplex, (List.perm_insertionSort byValue s).length_eq]
    exact h.1
  · intro pv hpv
    exact h.2 pv ((List.perm_insertionSort byValue s).mem_iff.mp hpv)

/-- Helper: the head of the sorted simplex has the least cached value. -/
theorem sortSimplex_head_le (s : List (List α × α)) :
    ∀ pv ∈ sortSimplex s, ((sortSimplex s).getD 0 ([], 0)).2 ≤ pv.2 := by
  have hs : List.Sorted byValue (sortSimplex s) :=
    List.sorted_insertionSort byValue s
  cases hh : sortSimplex s with
  | nil => intro pv hpv; simp at hpv
  | cons x xs =>
    rw [hh] at hs
    intro pv hpv
    rcases List.mem_cons.mp hpv with rfl | hmem
    · exact le_refl _
    · exact List.rel_of_sorted_cons hs pv hmem

/-- Helper: one optimizer step preserves the invariant, and every point it
passes to the objective lies inside the bounds box. -/
theorem nmStep_inv (f : List α → α) (bounds : List (α × α)) (n : ℕ)
    (s : List (List α × α)) (hb : ∀ p ∈ bounds, p.1 ≤ p.2)
    (hlen : bounds.length = n) (hinv : NMInv f bounds n s) :
    NMInv f bounds n (nmStep f bounds n s).1
    ∧ ∀ q ∈ (nmStep f bounds n s).2, insideBounds bounds q = true := by
  obtain ⟨hslen, hmem⟩ := hinv
  have hvlen : ∀ pv ∈ s, pv.1.length = n := by
    intro pv hpv
    rw [insideBounds_length (hmem pv hpv).2, hlen]
  have hcent : (centroidOf n s).length = n := centroidOf_length n s hvlen
  have hworst : s.getD n ([], 0) ∈ s := getD_mem s n ([], 0) (by omega)
  have hwlen : (s.getD n ([], 0)).1.length = n := hvlen _ hworst
  have hclip : ∀ y : List α, n ≤ y.length →
      insideBounds bounds (clipToBounds bounds y) = true := by
    intro y hy
    exact insideBounds_clipToBounds bounds y hb (hlen ▸ hy)
  have hcliplen : ∀ y : List α, n ≤ y.length →
      (clipToBounds bounds y).length = n := by
    intro y hy
    rw [insideBounds_length (hclip y hy), hlen]
  have hrlen : (List.zipWith (fun c w => c + 1 * (c - w)) (centroidOf n s)
      (s.getD n ([], 0)).1).length = n := by
    rw [List.length_zipWith, hcent, hwlen, Nat.min_self]
  have hrC := hclip _ (le_of_eq hrlen.symm)
  have hrClen := hcliplen _ (le_of_eq hrlen.symm)
  have hset : ∀ (c : List α) (v : α), v = f c → insideBounds bounds c = true →
      NMInv f bounds n (s.set n (c, v)) := by
    intro c v hv hc
    constructor
    · rw [List.length_set]; exact hslen
    · intro pv hpv
      rcases List.mem_or_eq_of_mem_set hpv with hin | rfl
      · exact hmem pv hin
      · exact ⟨hv, hc⟩
  cases s with
  | nil => simp at hslen
  | cons b0 rest =>
    unfold nmStep
    dsimp only
    split_ifs
    · -- reflection accepted
      refine ⟨hset _ _ rfl hrC, ?_⟩
      intro q hq
      rw [List.mem_singleton] at hq
      subst hq
      exact hrC
    · -- expansion, expanded kept
      have helen : (List.zipWith (fun c r => c + 2 * (r - c)) (centroidOf n (b0 :: rest))
          (clipToBounds bounds (List.zipWith (fun c w => c + 1 * (c - w))
            (centroidOf n (b0 :: rest)) ((b0 :: rest).getD n ([], 0)).1))).length = n := by
        rw [List.length_zipWith, hcent, hrClen, Nat.min_self]
      have heC := hclip _ (le_of_eq helen.symm)
      refine ⟨hset _ _ rfl heC, ?_⟩
      intro q hq
      rcases List.mem_cons.mp hq with rfl | hq
      · exact hrC
      · rw [List.mem_singleton] at hq
        subst hq
        exact heC
    · -- expansion, reflected kept
      have helen : (List.zipWith (fun c r => c + 2 * (r - c)) (centroidOf n (b0 :: rest))
          (clipToBounds bounds (List.zipWith (fun c w => c + 1 * (c - w))
            (centroidOf n (b0 :: rest)) ((b0 :: rest).getD n ([], 0)).1))).length = n := by
        rw [List.length_zipWith, hcent, hrClen, Nat.min_self]
      have heC := hclip _ (le_of_eq helen.symm)
      refine ⟨hset _ _ rfl hrC, ?_⟩
      intro q hq
      rcases List.mem_cons.mp hq with rfl | hq
      · exact hrC
      · rw [List.mem_singleton] at hq
        subst hq
        exact heC
    · -- contraction accepted
      have hclen : (List.zipWith (fun c w => c + (1/2) * (w - c)) (centroidOf n (b0 :: rest))
          ((b0 :: rest).getD n ([], 0)).1).length = n := by
        rw [List.length_zipWith, hcent, hwlen, Nat.min_self]
      have hcC := hclip _ (le_of_eq hclen.symm)
      refine ⟨hset _ _ rfl hcC, ?_⟩
      intro q hq
      rcases List.mem_cons.mp hq with rfl | hq
      · exact hrC
      · rw [List.mem_singleton] at hq
        subst hq
        exact hcC
    · -- shrink
      have hclen : (List.zipWith (fun c w => c + (1/2) * (w - c)) (centroidOf n (b0 :: rest))
          ((b0 :: rest).getD n ([], 0)).1).length = n := by
        rw [List.length_zipWith, hcent, hwlen, Nat.min_self]
      have hcC := hclip _ (le_of_eq hclen.symm)
      have hb0 : b0 ∈ b0 :: rest := List.mem_cons_self b0 rest
      have hb0len : b0.1.length = n := hvlen b0 hb0
      have hshr : ∀ p ∈ rest, insideBounds bounds
          (clipToBounds bounds (List.zipWith (fun x bb => bb + (1/2) * (x - bb))
            p.1 b0.1)) = true := by
        intro p hp
        apply hclip
        rw [List.length_zipWith, hvlen p (List.mem_cons_of_mem b0 hp), hb0len,
          Nat.min_self]
      refine ⟨⟨?_, ?_⟩, ?_⟩
      · simpa using hslen
      · intro pv hpv
        rcases List.mem_cons.mp hpv with rfl | hpv
        · exact hmem pv hb0
        · rcases List.mem_map.mp hpv with ⟨p, hp, rfl⟩
          exact ⟨rfl, hshr p hp⟩
      · intro q hq
        rcases List.mem_cons.mp hq with rfl | hq
        · exact hrC
        · rcases List.mem_cons.mp hq with rfl | hq
          · exact hcC
          · rcases List.mem_map.mp hq with ⟨pr, hpr, rfl⟩
            rcases List.mem_map.mp hpr with ⟨p, hp, rfl⟩
            exact hshr p hp

/-- Helper: the optimizer loop preserves the invariant, traces only
in-bounds evaluations, and performs at most `fuel` further iterations. -/
theorem nmRun_inv (f : List α → α) (bounds : List (α × α)) (n : ℕ) (tol : α)
    (hb : ∀ p ∈ bounds, p.1 ≤ p.2) (hlen : bounds.length = n) :
    ∀ (fuel : ℕ) (s : List (List α × α)) (count : ℕ) (trace : List (List α)),
    NMInv f bounds n s → (∀ q ∈ trace, insideBounds bounds q = true) →
    NMInv f bounds n (nmRun f bounds n tol fuel s count trace).1
    ∧ (∀ q ∈ (nmRun f bounds n tol fuel s count trace).2.2,
        insideBounds bounds q = true)
    ∧ (nmRun f bounds n tol fuel s count trace).2.1 ≤ count + fuel := by
  intro fuel
  induction fuel with
  | zero => intro s count trace hs ht; exact ⟨hs, ht, Nat.le_refl _⟩
  | succ fuel ih =>
    intro s count trace hs ht
    rw [nmRun]
    by_cases hc : ((sortSimplex s).getD n ([], 0)).2
        - ((sortSimplex s).getD 0 ([], 0)).2 < tol
    · rw [if_pos hc]
      refine ⟨sortSimplex_inv hs, ht, ?_⟩
      show count + 1 ≤ count + (fuel + 1)
      omega
    · rw [if_neg hc]
      have hsort := sortSimplex_inv hs
      have hstep := nmStep_inv f bounds n (sortSimplex s) hb hlen hsort
      have htr : ∀ q ∈ trace ++ (nmStep f bounds n (sortSimplex s)).2,
          insideBounds bounds q = true := by
        intro q hq
        rcases List.mem_append.mp hq with h | h
        exacts [ht q h, hstep.2 q h]
      have hrec := ih (nmStep f bounds n (sortSimplex s)).1 (count + 1) _ hstep.1 htr
      refine ⟨hrec.1, hrec.2.1, ?_⟩
      have := hrec.2.2
      omega

/-- Helper: if the loop returns strictly fewer iterations than its budget,
it stopped at the tolerance test, so the final simplex is a sorted one. -/
theorem nmRun_early_sorted (f : List α → α) (bounds : List (α × α)) (n : ℕ)
    (tol : α) :
    ∀ (fuel : ℕ) (s : List (List α × α)) (count : ℕ) (trace : List (List α)),
    (nmRun f bounds n tol fuel s count trace).2.1 < count + fuel →
    ∃ s0, (nmRun f bounds n tol fuel s count trace).1 = sortSimplex s0 := by
  intro fuel
  induction fuel with
  | zero =>
    intro s count trace h
    rw [nmRun] at h
    have h2 : count < count := by simp at h
    exact absurd h2 (lt_irrefl count)
  | succ fuel ih =>
    intro s count trace h
    rw [nmRun] at h ⊢
    by_cases hc : ((sortSimplex s).getD n ([], 0)).2
        - ((sortSimplex s).getD 0 ([], 0)).2 < tol
    · rw [if_pos hc]
      exact ⟨s, rfl⟩
    · rw [if_neg hc] at h ⊢
      apply ih
      omega

/-- Helper: the initial simplex has `n + 1` vertices. -/
theorem initialSimplex_length (initial : List α) (bounds : List (α × α)) :
    (initialSimplex initial bounds).length = initial.length + 1 := by
  simp [initialSimplex]

/-- Helper: every initial simplex vertex lies inside the bounds box. -/
theorem initialSimplex_inside (initial : List α) (bounds : List (α × α))
    (hb : ∀ p ∈ bounds, p.1 ≤ p.2) (hlen : bounds.length = initial.length) :
    ∀ q ∈ initialSimplex initial bounds, insideBounds bounds q = true := by
  intro q hq
  rcases List.mem_cons.mp hq with rfl | hmem
  · exact insideBounds_clipToBounds bounds initial hb (le_of_eq hlen)
  · rcases List.mem_map.mp hmem with ⟨i, _, rfl⟩
    apply insideBounds_clipToBounds bounds _ hb
    rw [List.length_mapIdx]
    exact le_of_eq hlen

/-- Helper: the evaluated initial simplex satisfies the invariant. -/
theorem initialSimplex_inv (f : List α → α) (initial : List α)
    (bounds : List (α × α)) (hb : ∀ p ∈ bounds, p.1 ≤ p.2)
    (hlen : bounds.length = initial.length) :
    NMInv f bounds initial.length
      ((initialSimplex initial bounds).map (fun x => (x, f x))) := by
  constructor
  · rw [List.length_map, initialSimplex_length]
  · intro pv hpv
    rcases List.mem_map.mp hpv with ⟨x, hx, rfl⟩
    exact ⟨rfl, initialSimplex_inside initial bounds hb hlen x hx⟩

/-- C2 (amended): for every objective, initial point, bounds (ordered, of
the initial point's dimension) and options, `nelderMead` always returns a
record (no failure mode) with `fx` the objective value at `x` and
`iterations ≤ maxIterations`; and whenever the loop stopped at the tolerance
test `(worst value - best value) < tolerance` — in particular whenever
`iterations < maxIterations` — `x` is a vertex of the final simplex with the
lowest cached objective value.  When the iteration budget is exhausted, the
final simplex is as the last move left it, unsorted, and `x` (= vertex 0)
need not be its lowest-value vertex (see the counterexample). -/
theorem nelderMead_return_spec (f : List α → α) (initial : List α)
    (bounds : List (α × α)) (maxIter : ℕ) (tol : α)
    (hb : ∀ p ∈ bounds, p.1 ≤ p.2) (hlen : bounds.length = initial.length) :
    (nelderMead f initial bounds maxIter tol).fx
        = f (nelderMead f initial bounds maxIter tol).x
    ∧ (nelderMead f initial bounds maxIter tol).iterations ≤ maxIter
    ∧ ((nmRunFull f initial bounds maxIter tol).2.1 < maxIter →
        ∀ pv ∈ (nmRunFull f initial bounds maxIter tol).1,
          (nelderMead f initial bounds maxIter tol).fx ≤ pv.2) := by
  have heq : nmRunFull f initial bounds maxIter tol
      = nmRun f bounds initial.length tol maxIter
          ((initialSimplex initial bounds).map (fun x => (x, f x))) 0 [] := rfl
  have hrun := nmRun_inv f bounds initial.length tol hb hlen maxIter
    ((initialSimplex initial bounds).map (fun x => (x, f x))) 0 []
    (initialSimplex_inv f initial bounds hb hlen) (by intro q hq; simp at hq)
  rw [← heq] at hrun
  have hfin := hrun.1
  have hlen1 : (nmRunFull f initial bounds maxIter tol).1.length
      = initial.length + 1 := hfin.1
  have hpos : 0 < (nmRunFull f initial bounds maxIter tol).1.length := by omega
  have hhead := getD_mem (nmRunFull f initial bounds maxIter tol).1 0 ([], 0) hpos
  refine ⟨?_, ?_, ?_⟩
  · exact (hfin.2 _ hhead).1
  · show (nmRunFull f initial bounds maxIter tol).2.1 ≤ maxIter
    have h2 := hrun.2.2
    omega
  · intro hlt
    rw [heq] at hlt
    obtain ⟨s0, hs0⟩ := nmRun_early_sorted f bounds initial.length tol maxIter
      ((initialSimplex initial bounds).map (fun x => (x, f x))) 0 []
      (by omega)
    rw [← heq] at hs0
    show ∀ pv ∈ (nmRunFull f initial bounds maxIter tol).1,
      ((nmRunFull f initial bounds maxIter tol).1.getD 0 ([], 0)).2 ≤ pv.2
    rw [hs0]
    exact sortSimplex_head_le s0

/-- C2 counterexample: objective `x ↦ x₀`, initial point `[0]`, bounds
`[[-10, 10]]`, one iteration, tolerance `1e-8`: the single iteration ends
with an expansion that places the vertex `[-2]` (value `-2`) at the worst
slot; the budget is then exhausted without re-sorting, and the call returns
`x = [0]`, `fx = 0`, although the final simplex contains the vertex `[-2]`
with the strictly lower cached value `-2` — so the returned `x` is neither
the lowest-value vertex of the final simplex nor the best point found. -/
theorem nelderMead_not_best_cex :
    (nelderMead (fun l : List ℚ => l.headD 0) [0] [(-10, 10)] 1 (1/100000000)).x = [0]
    ∧ (nelderMead (fun l : List ℚ => l.headD 0) [0] [(-10, 10)] 1 (1/100000000)).fx = 0
    ∧ ([-2], -2) ∈ (nmRunFull (fun l : List ℚ => l.headD 0) [0] [(-10, 10)] 1
        (1/100000000)).1
    ∧ ((-2 : ℚ) < 0) := by
  refine ⟨?_, ?_, ?_, by norm_num⟩ <;>
    norm_num [nelderMead, nmRunFull, nmRun, nmStep, sortSimplex, initialSimplex,
      clipToBounds, centroidOf, byValue, List.range_succ, List.getD]

/-- C2 witness: the amended return specification instantiated at the
constant-zero objective over `[[-10, 10]]` with budget 5; the run converges
at once, so the tolerance-stop clause applies. -/
theorem nelderMead_return_spec_witness :
    (∀ p ∈ [((-10 : ℚ), 10)], p.1 ≤ p.2)
    ∧ ([((-10 : ℚ), 10)].length = [(0 : ℚ)].length)
    ∧ ((nelderMead (fun _ : List ℚ => (0 : ℚ)) [0] [(-10, 10)] 5 1).fx
        = (fun _ : List ℚ => (0 : ℚ))
            (nelderMead (fun _ : List ℚ => (0 : ℚ)) [0] [(-10, 10)] 5 1).x
      ∧ (nelderMead (fun _ : List ℚ => (0 : ℚ)) [0] [(-10, 10)] 5 1).iterations ≤ 5
      ∧ ((nmRunFull (fun _ : List ℚ => (0 : ℚ)) [0] [(-10, 10)] 5 1).2.1 < 5 →
          ∀ pv ∈ (nmRunFull (fun _ : List ℚ => (0 : ℚ)) [0] [(-10, 10)] 5 1).1,
            (nelderMead (fun _ : List ℚ => (0 : ℚ)) [0] [(-10, 10)] 5 1).fx ≤ pv.2)) :=
  ⟨by intro p hp; rw [List.mem_singleton] at hp; subst hp; norm_num, rfl,
    nelderMead_return_spec (fun _ => 0) [0] [(-10, 10)] 5 1
      (by intro p hp; rw [List.mem_singleton] at hp; subst hp; norm_num) rfl⟩

/-- C3: for every objective, initial point, per-dimension bounds (each
ordered, one per dimension) and options, every point `nelderMead` ever
passes to the objective function — the initial simplex vertices and all
reflected, expanded, contracted and shrunk candidates, which are clipped
into the box before evaluation — lies inside the bounds box, and so does the
point it finally returns. -/
theorem nelderMead_in_bounds (f : List α → α) (initial : List α)
    (bounds : List (α × α)) (maxIter : ℕ) (tol : α)
    (hb : ∀ p ∈ bounds, p.1 ≤ p.2) (hlen : bounds.length = initial.length) :
    (∀ q ∈ nelderMeadEvals f initial bounds maxIter tol,
        insideBounds bounds q = true)
    ∧ insideBounds bounds (nelderMead f initial bounds maxIter tol).x = true := by
  have heq : nmRunFull f initial bounds maxIter tol
      = nmRun f bounds initial.length tol maxIter
          ((initialSimplex initial bounds).map (fun x => (x, f x))) 0 [] := rfl
  have hrun := nmRun_inv f bounds initial.length tol hb hlen maxIter
    ((initialSimplex initial bounds).map (fun x => (x, f x))) 0 []
    (initialSimplex_inv f initial bounds hb hlen) (by intro q hq; simp at hq)
  rw [← heq] at hrun
  constructor
  · intro q hq
    unfold nelderMeadEvals at hq
    rcases List.mem_append.mp hq with h | h
    · exact initialSimplex_inside initial bounds hb hlen q h
    · exact hrun.2.1 q h
  · have hfin := hrun.1
    have hlen1 : (nmRunFull f initial bounds maxIter tol).1.length
        = initial.length + 1 := hfin.1
    have hpos : 0 < (nmRunFull f initial bounds maxIter tol).1.length := by omega
    exact (hfin.2 _ (getD_mem (nmRunFull f initial bounds maxIter tol).1 0
      ([], 0) hpos)).2

/-- C3 witness: the clipping theorem instantiated at the concrete run of the
counterexample's inputs; all four evaluated points and the returned point
are inside `[[-10, 10]]`. -/
theorem nelderMead_in_bounds_witness :
    (∀ p ∈ [((-10 : ℚ), 10)], p.1 ≤ p.2)
    ∧ ([((-10 : ℚ), 10)].length = [(0 : ℚ)].length)
    ∧ ((∀ q ∈ nelderMeadEvals (fun l : List ℚ => l.headD 0) [0] [(-10, 10)] 1
          (1/100000000), insideBounds [(-10, 10)] q = true)
      ∧ insideBounds [((-10 : ℚ), 10)]
          (nelderMead (fun l : List ℚ => l.headD 0) [0] [(-10, 10)] 1
            (1/100000000)).x = true) :=
  ⟨by intro p hp; rw [List.mem_singleton] at hp; subst hp; norm_num, rfl,
    nelderMead_in_bounds (fun l => l.headD 0) [0] [(-10, 10)] 1 (1/100000000)
      (by intro p hp; rw [List.mem_singleton] at hp; subst hp; norm_num) rfl⟩

end NelderMeadTheorems

/-- C8 (amended): whenever the central-difference derivative has absolute
value below the near-zero threshold `1e-10` (at a non-converged iterate), or
the Newton update leaves `[-0.05, 0.50]`, the solver switches to bisection
on `[-0.02, 0.30]`; and for every objective, bisection fails with the
no-root error exactly when the objective has a strictly positive product of
values at the ends of the original bracket AND at the ends of the widened
bracket `[-0.05, 0.50]` — same signs across the widened bracket alone do not
imply failure, because the widened bracket is only consulted after the
original bracket fails the sign test (see the counterexample). -/
theorem yieldSolver_bisection_spec :
    (∀ (f : ℚ → ℚ) (fuel : ℕ) (ytm : ℚ),
      ¬ |f ytm| < newtonTol →
      (|numDerivative f ytm| < derivEps
        ∨ ytm - f ytm / numDerivative f ytm < -1/20
        ∨ 1/2 < ytm - f ytm / numDerivative f ytm) →
      newtonLoop f (fuel + 1) ytm = bisectionMethod f (-1/50) (3/10) newtonTol 100)
    ∧ (∀ (f : ℚ → ℚ) (a b tol : ℚ) (maxIter : ℕ),
        bisectionMethod f a b tol maxIter = .error .noRootInInterval
          ↔ (0 < f a * f b ∧ 0 < f (-1/20) * f (1/2))) := by
  constructor
  · intro f fuel ytm h1 h2
    rw [newtonLoop]
    rw [if_neg h1]
    by_cases hd : |numDerivative f ytm| < derivEps
    · rw [if_pos hd]
    · rw [if_neg hd]
      have hoob : ytm - f ytm / numDerivative f ytm < -1/20
          ∨ 1/2 < ytm - f ytm / numDerivative f ytm := h2.resolve_left hd
      rw [if_pos hoob]
  · intro f a b tol maxIter
    unfold bisectionMethod
    by_cases h1 : 0 < f a * f b
    · rw [if_pos h1]
      by_cases h2 : 0 < f (-1/20) * f (1/2)
      · rw [if_pos h2]
        exact iff_of_true rfl ⟨h1, h2⟩
      · rw [if_neg h2]
        exact iff_of_false (by simp) (fun hc => h2 hc.2)
    · rw [if_neg h1]
      exact iff_of_false (by simp) (fun hc => h1 hc.1)

/-- C8 witness: for the constant objective 1, a non-converged iterate with a
zero numerical derivative makes the Newton loop return the bisection result,
and bisection on `[-0.02, 0.30]` fails with the no-root error since the
products at both brackets' ends are `1 > 0`. -/
theorem yieldSolver_bisection_spec_witness :
    newtonLoop (fun _ : ℚ => 1) 1 0
      = bisectionMethod (fun _ : ℚ => 1) (-1/50) (3/10) newtonTol 100
    ∧ bisectionMethod (fun _ : ℚ => 1) (-1/50) (3/10) newtonTol 100
      = .error .noRootInInterval :=
  ⟨yieldSolver_bisection_spec.1 (fun _ => 1) 0 0
      (by norm_num [newtonTol])
      (Or.inl (by norm_num [numDerivative, derivStep, derivEps])),
    (yieldSolver_bisection_spec.2 (fun _ => 1) (-1/50) (3/10) newtonTol 100).mpr
      ⟨by norm_num, by norm_num⟩⟩

/-- C8 counterexample: an objective with the same (positive) sign at both
ends of the widened bracket `[-0.05, 0.50]` for which bisection nonetheless
succeeds, because the original bracket `[-0.02, 0.30]` already exhibits a
sign change and the widened bracket is never consulted — refuting the
claim's "fails exactly when the objective has the same sign at both ends of
the widened bracket". -/
theorem bisection_widened_bracket_cex :
    0 < (fun y : ℚ => if y < -3/100 then (1 : ℚ) else if y < 1/10 then -1 else 1) (-1/20)
        * (fun y : ℚ => if y < -3/100 then (1 : ℚ) else if y < 1/10 then -1 else 1) (1/2)
    ∧ isOkE (bisectionMethod
        (fun y : ℚ => if y < -3/100 then (1 : ℚ) else if y < 1/10 then -1 else 1)
        (-1/50) (3/10) newtonTol 100) = true := by
  constructor
  · norm_num
  · unfold bisectionMethod
    rw [if_neg (by norm_num)]
    rfl

/-- C9 witness: the grid theorem instantiated at the counterexample's
parameters. -/
theorem getYieldCurve_grid_witness :
    2 ≤ 2 ∧ (0 : ℚ) < 10
    ∧ ∀ p ∈ getYieldCurvePoints (fun _ => 0) (fun _ => true) (1/100) 10 2,
        p.1 ≤ 1/100 + 10 :=
  ⟨le_refl 2, by norm_num,
    (getYieldCurve_grid (fun _ => 0) (fun _ => true) (1/100) 10 2
      (le_refl 2) (by norm_num)).2.2⟩

end Securities
